import Mathlib

/-!
Shallow embedding of the Hrana client module (value codec, row projector,
transaction condition-graph builder) and proofs of its specification claims.

The definitions below are translated from the TypeScript source of the
repository.  JavaScript machine doubles are modelled by `JsNumber`: the
wire carries floats verbatim (the codec never does float arithmetic), and
the one place a double is *produced* — the numeric coercion `+s` of a
decimal integer literal — is modelled exactly by round-to-nearest-even at
53 bits of precision (`roundF64mag`), including overflow to infinity.
String-to-number / string-to-bigint coercions are modelled on the domain
the wire guarantees (optionally signed base-10 integer literals); outside
that domain the model returns NaN / failure.
-/

namespace Hrana

/-- A JavaScript `number`: NaN, the infinities, or a finite value.  Finite
doubles are carried as exact rationals; the codec only moves them around. -/
inductive JsNumber where
  | nan : JsNumber
  | inf : JsNumber
  | negInf : JsNumber
  | val : ℚ → JsNumber
deriving DecidableEq, Repr

/-- The ASCII digit character for `d` (meaningful for `d < 10`). -/
def digitChar (d : Nat) : Char := Char.ofNat (48 + d)

/-- Decimal digits of `n`, least significant first. -/
def natDigitsRev (n : Nat) : List Char :=
  if h : n < 10 then [digitChar n]
  else digitChar (n % 10) :: natDigitsRev (n / 10)
decreasing_by exact Nat.div_lt_self (by omega) (by omega)

/-- Canonical decimal rendering of a natural number (no sign, no leading
zeros), as produced by JavaScript number/bigint stringification. -/
def natToDecimal (n : Nat) : String := String.mk (natDigitsRev n).reverse

/-- Canonical decimal rendering of an integer, as produced by the
JavaScript coercion `'' + v` on a bigint. -/
def intToDecimal (i : Int) : String :=
  match i with
  | Int.ofNat n => natToDecimal n
  | Int.negSucc m => "-" ++ natToDecimal (m + 1)

/-- Numeric value of an ASCII digit character, if it is one. -/
def charDigit (c : Char) : Option Nat :=
  if c.isDigit then some (c.toNat - 48) else none

/-- Accumulating parse of a run of decimal digits. -/
def parseNatGo : List Char → Nat → Option Nat
  | [], acc => some acc
  | c :: cs, acc =>
    match charDigit c with
    | some d => parseNatGo cs (acc * 10 + d)
    | none => none

/-- Parse a non-empty run of decimal digits. -/
def parseNat (cs : List Char) : Option Nat :=
  if cs.isEmpty then none else parseNatGo cs 0

/-- Sign dispatch of the integer-literal parse, on a literal's first
character and remaining characters. -/
def parseSigned (c : Char) (cs : List Char) : Option Int :=
  if c = '+' then (parseNat cs).map Int.ofNat
  else if c = '-' then (parseNat cs).map (fun n => -(n : Int))
  else (parseNat (c :: cs)).map Int.ofNat

/-- Parse an optionally signed base-10 integer literal.  This is the exact
value denoted by the literal — the common core of the JavaScript coercions
`+s` (before float64 rounding) and `BigInt(s)` on the wire-guaranteed
domain of `Integer.value` strings. -/
def parseIntLit (s : String) : Option Int :=
  match s.data with
  | [] => none
  | c :: cs => parseSigned c cs

/-- Round a natural number to the nearest float64-representable integer
(round half to even at 53 significant bits).  Every double obtained by
coercing an integer literal is an integer, so the result is exact. -/
def roundF64mag (n : Nat) : Nat :=
  if n ≤ 2 ^ 53 then n
  else
    let e := Nat.log2 n - 52
    let q := n / 2 ^ e
    let r := n % 2 ^ e
    let h := 2 ^ (e - 1)
    let q' := if h < r ∨ (r = h ∧ q % 2 = 1) then q + 1 else q
    q' * 2 ^ e

/-- The least magnitude that overflows a float64, written out as a numeral
so that concrete evaluation stays cheap; `f64Overflow_eq` below checks it
against `2 ^ 1024`. -/
def f64Overflow : Nat := 179769313486231590772930519078902473361797697894230657273430081157732675805500963132708477322407536021120113879871393357658789768814416622492847430639474124377767893424865485276302219601246094119453082952085005768838150682342462881473913110540827237163350510684586298239947245938479716304835356329624224137216

/-- The JavaScript numeric coercion `+s` modelled on optionally signed
base-10 integer literals: the exact value rounded to the nearest double,
with overflow to the infinities; any other string gives NaN. -/
def jsStringToNumber (s : String) : JsNumber :=
  match parseIntLit s with
  | none => JsNumber.nan
  | some i =>
    let m := roundF64mag i.natAbs
    if f64Overflow ≤ m then (if i < 0 then JsNumber.negInf else JsNumber.inf)
    else if i < 0 then JsNumber.val (-(m : ℚ))
    else JsNumber.val (m : ℚ)

/-! ### Base64 (the platform `btoa` / forgiving `atob`) -/

/-- The standard base64 alphabet, indexed by sextet value. -/
def b64alphabet : List Char :=
  "ABCDEFGHIJKLMNOPQRSTUVWXYZabcdefghijklmnopqrstuvwxyz0123456789+/".data

/-- Character for a sextet (meaningful for `n < 64`). -/
def b64char (n : Nat) : Char := (b64alphabet.getD n 'A')

/-- Sextet for a character, failing outside the standard alphabet. -/
def b64decChar (c : Char) : Option Nat := b64alphabet.indexOf? c

/-- Pack a byte list into sextets, three bytes to four sextets, with the
final one or two bytes zero-padded on the right as `btoa` does. -/
def bytesToSextets : List Nat → List Nat
  | x :: y :: z :: rest =>
    x / 4 :: ((x % 4) * 16 + y / 16) :: ((y % 16) * 4 + z / 64) :: (z % 64) ::
      bytesToSextets rest
  | [x, y] => [x / 4, (x % 4) * 16 + y / 16, (y % 16) * 4]
  | [x] => [x / 4, (x % 4) * 16]
  | [] => []

/-- The `=` padding `btoa` appends for a payload of `len` bytes. -/
def padFor (len : Nat) : List Char :=
  match len % 3 with
  | 1 => ['=', '=']
  | 2 => ['=']
  | _ => []

/-- Character stream of `btoa` on a byte list. -/
def btoaChars (bs : List Nat) : List Char :=
  (bytesToSextets bs).map b64char ++ padFor bs.length

/-- The platform `btoa`: standard-alphabet base64 with padding.  The source
feeds it `String.fromCharCode` of a `Uint8Array`, i.e. a latin-1 string of
the bytes, so the input is a byte list. -/
def btoa (bs : List (Fin 256)) : String := String.mk (btoaChars (bs.map Fin.val))

/-- ASCII whitespace, as stripped by forgiving-base64 decoding. -/
def isB64Ws (c : Char) : Bool :=
  c = ' ' ∨ c = '\t' ∨ c = '\n' ∨ c = '\x0c' ∨ c = '\r'

/-- Remove one or two trailing `=` characters, as forgiving-base64 does
when the length is a multiple of four. -/
def dropPad (cs : List Char) : List Char :=
  if cs.getLast? = some '=' then
    if cs.dropLast.getLast? = some '=' then cs.dropLast.dropLast
    else cs.dropLast
  else cs

/-- Monadic map in the failure monad: apply `f` to every element, failing
as soon as `f` does. -/
def mapOrFail (f : α → Option β) : List α → Option (List β)
  | [] => some []
  | a :: l =>
    match f a with
    | none => none
    | some b =>
      match mapOrFail f l with
      | none => none
      | some bs => some (b :: bs)

/-- Unpack sextets into bytes, four sextets to three bytes; a trailing pair
or triple of sextets yields one or two bytes with the extra bits dropped.
A single trailing sextet cannot occur after the length check. -/
def decodeQuads : List Nat → List Nat
  | a :: b :: c :: d :: rest =>
    (a * 4 + b / 16) :: ((b % 16) * 16 + c / 4) :: ((c % 4) * 64 + d) ::
      decodeQuads rest
  | [a, b] => [a * 4 + b / 16]
  | [a, b, c] => [a * 4 + b / 16, (b % 16) * 16 + c / 4]
  | [_] => []
  | [] => []

/-- Padding removal step of forgiving base64: trailing `=` is stripped
only when the length is a multiple of four. -/
def atobStrip (cs : List Char) : List Char :=
  if cs.length % 4 = 0 then dropPad cs else cs

/-- Decoding step of forgiving base64 on the stripped characters: reject
length `≡ 1 (mod 4)` and any character outside the standard alphabet,
then unpack the sextets. -/
def atobCore (cs : List Char) : Option (List Nat) :=
  if cs.length % 4 = 1 then none
  else
    match mapOrFail b64decChar cs with
    | none => none
    | some sx => some (decodeQuads sx)

/-- The platform `atob`: WHATWG forgiving-base64 decode.  Strips ASCII
whitespace, then up to two trailing `=` when the length is a multiple of
four, rejects length `≡ 1 (mod 4)` and any character outside the standard
alphabet — in particular the URL-safe characters `-` and `_` — and unpacks
the sextets.  `none` models the thrown `InvalidCharacterError`. -/
def atob (s : String) : Option (List Nat) :=
  atobCore (atobStrip (s.data.filter (fun c => !isB64Ws c)))

/-! ### Wire values and the codec -/

/-- Content of a dynamic field of a wire value object: the `value` field
holds a string (text/integer variants) or a number (float variant). -/
inductive JsField where
  | fstr : String → JsField
  | fnum : JsNumber → JsField
deriving DecidableEq, Repr

/-- A wire `Value` as the JavaScript object it is at runtime: a `type`
discriminant string plus the payload fields that may or may not be
present.  Modelling the object rather than a strict sum is what lets the
decltype retagging in `parse` overwrite `type` in place, exactly as the
source does. -/
structure JsValue where
  type : String
  value : Option JsField := none
  base64 : Option String := none
deriving DecidableEq, Repr

/-- The wire `Null` value. -/
def mkNull : JsValue := { type := "null" }

/-- The wire `Text` value. -/
def mkText (s : String) : JsValue := { type := "text", value := some (JsField.fstr s) }

/-- The wire `Float` value. -/
def mkFloat (x : JsNumber) : JsValue := { type := "float", value := some (JsField.fnum x) }

/-- The wire `Integer` value (decimal digits carried as text). -/
def mkInteger (s : String) : JsValue := { type := "integer", value := some (JsField.fstr s) }

/-- The wire `Blob` value. -/
def mkBlob (b : String) : JsValue := { type := "blob", base64 := some b }

/-- A decoded native value (`Hrana.Value.Decoded` in the source), plus
`undef` for the JavaScript `undefined` that reading a missing payload
field yields. -/
inductive Decoded where
  | vnull : Decoded
  | undef : Decoded
  | str : String → Decoded
  | num : JsNumber → Decoded
  | big : Int → Decoded
  | bytes : List Nat → Decoded
deriving DecidableEq, Repr

/-- Reading the `value` field of a wire object and returning it as-is
(the `text` branch of `decode`, and the integer fall-through branch). -/
def fieldAsDecoded : Option JsField → Decoded
  | none => Decoded.undef
  | some (JsField.fstr s) => Decoded.str s
  | some (JsField.fnum x) => Decoded.num x

/-- The JavaScript unary plus `+raw.value`: identity on a number, the
numeric coercion on a string, NaN on `undefined`. -/
def jsPlus : Option JsField → JsNumber
  | none => JsNumber.nan
  | some (JsField.fnum x) => x
  | some (JsField.fstr s) => jsStringToNumber s

/-- The JavaScript `BigInt(raw.value)` conversion; `none` models the
exception thrown on `undefined`, a non-integral number, or a string that
is not an integer literal. -/
def jsBigInt : Option JsField → Option Int
  | none => none
  | some (JsField.fnum (JsNumber.val q)) => if q.den = 1 then some q.num else none
  | some (JsField.fnum _) => none
  | some (JsField.fstr s) => parseIntLit s

/-- Truthiness of the `mode` argument combined with the first test of the
integer branch: `!mode || mode === 'number'`. -/
def modeFalsyOrNumber : Option String → Bool
  | none => true
  | some m => m = "" ∨ m = "number"

/-- The `decode` function of the source: a switch on `raw.type` with
cases `null`/`text`/`float`/`integer`, every other discriminant falling
through to the blob path, which reads `raw.base64` (JavaScript coerces a
missing field to the string `"undefined"` at the `atob` call) and base64-
decodes it.  `none` models a thrown exception. -/
def decode (raw : JsValue) (mode : Option String) : Option Decoded :=
  if raw.type = "null" then some Decoded.vnull
  else if raw.type = "text" then some (fieldAsDecoded raw.value)
  else if raw.type = "float" then some (Decoded.num (jsPlus raw.value))
  else if raw.type = "integer" then
    if modeFalsyOrNumber mode then some (Decoded.num (jsPlus raw.value))
    else if mode = some "bigint" then (jsBigInt raw.value).map Decoded.big
    else some (fieldAsDecoded raw.value)
  else
    (atob ((raw.base64).getD "undefined")).map Decoded.bytes

/-- A native input to `encode`: `null`/`undefined`, a string, a number, a
bigint, a boolean, or raw bytes (a `Uint8Array`, whose entries are bytes
by construction). -/
inductive JsInput where
  | jsNull : JsInput
  | undef : JsInput
  | str : String → JsInput
  | num : JsNumber → JsInput
  | big : Int → JsInput
  | bool : Bool → JsInput
  | bytes : List (Fin 256) → JsInput

/-- The `encode` function of the source: `v == null` first, then a switch
on `typeof v`, anything left being raw bytes. -/
def encode : JsInput → JsValue
  | JsInput.jsNull => mkNull
  | JsInput.undef => mkNull
  | JsInput.str s => mkText s
  | JsInput.num x => mkFloat x
  | JsInput.big i => mkInteger (intToDecimal i)
  | JsInput.bool b => mkInteger (if b then "1" else "0")
  | JsInput.bytes bs => mkBlob (btoa bs)

/-! ### Statements, batches, and the transaction step graph -/

/-- A Hrana statement; the synthesized `BEGIN`/`COMMIT`/`ROLLBACK` steps
carry only `sql`, the optional fields absent. -/
structure Stmt where
  sql : String
  args : Option (List JsValue) := none
  want_rows : Option Bool := none
  named_args : Option (List (String × JsValue)) := none
deriving Repr

/-- A batch condition over prior step outcomes. -/
inductive BatchCond where
  | ok : Nat → BatchCond
  | error : Nat → BatchCond
  | not : BatchCond → BatchCond
  | and : List BatchCond → BatchCond
  | or : List BatchCond → BatchCond
  | isAutocommit : BatchCond
deriving Repr

/-- One step of a batch: a statement and an optional condition. -/
structure BatchStep where
  stmt : Stmt
  condition : Option BatchCond := none
deriving Repr

/-- The transaction mode, textually interpolated into the `BEGIN`. -/
inductive TransactionMode where
  | readonly : TransactionMode
  | immediate : TransactionMode
  | deferred : TransactionMode
deriving DecidableEq, Repr

/-- The SQL spelling of a transaction mode (its literal token). -/
def TransactionMode.sql : TransactionMode → String
  | TransactionMode.readonly => "readonly"
  | TransactionMode.immediate => "immediate"
  | TransactionMode.deferred => "deferred"

/-- The loop body of `transaction`: for the statement at original index
`i` (the counter starting at `i`), a step conditioned on
`And(Ok(i), Not(IsAutocommit))` — `i` being the synthesized index of the
immediately preceding step. -/
def stmtSteps : Nat → List Stmt → List BatchStep
  | _, [] => []
  | i, s :: rest =>
    { stmt := s,
      condition := some (BatchCond.and
        [BatchCond.ok i, BatchCond.not BatchCond.isAutocommit]) } ::
      stmtSteps (i + 1) rest

/-- The step list synthesized by `transaction`: `BEGIN {mode}` first, the
conditioned statements, then `COMMIT` unconditionally and `ROLLBACK`
conditioned on `Not(Ok(len))` where `len` is the step count before
`COMMIT` is pushed, i.e. the `COMMIT` step's own index. -/
def transactionSteps (ty : TransactionMode) (stmts : List Stmt) : List BatchStep :=
  { stmt := { sql := "BEGIN " ++ ty.sql } } ::
    (stmtSteps 0 stmts ++
      [{ stmt := { sql := "COMMIT" } },
       { stmt := { sql := "ROLLBACK" },
         condition := some (BatchCond.not (BatchCond.ok (stmts.length + 1))) }])

/-- An error structure in a batch result. -/
structure HranaError where
  message : String
  code : Option String := none
deriving DecidableEq, Repr

/-- A statement result.  `rows` is a list of rows of wire value objects,
positionally aligned with `cols`. -/
structure Col where
  name : Option String := none
  decltype : Option String := none
deriving DecidableEq, Repr

/-- The full statement result record. -/
structure StmtResult where
  cols : List Col
  rows : List (List JsValue)
  affected_row_count : Nat := 0
  last_insert_rowid : Option String := none
  rows_read : Nat := 0
  rows_written : Nat := 0
  query_duration_ms : JsNumber := JsNumber.val 0
deriving DecidableEq, Repr

/-- The result of executing a batch, index-aligned with the steps. -/
structure BatchResult where
  step_results : List (Option StmtResult)
  step_errors : List (Option HranaError)
deriving DecidableEq, Repr

/-- JavaScript `Array.prototype.slice(start, end)` for non-negative
bounds: the elements from `start` up to but excluding `end`, clamped. -/
def jsSlice (l : List α) (start stop : Nat) : List α := (l.take stop).drop start

/-- The post-processing of `transaction` on the server's batch result:
`slice(1, len)` on both sequences, `len` being `stmts.length + 1` (the
step count recorded just before `COMMIT` was pushed), removing the
synthetic `BEGIN`, `COMMIT` and `ROLLBACK` entries. -/
def transactionPost (nStmts : Nat) (r : BatchResult) : BatchResult :=
  { step_results := jsSlice r.step_results 1 (nStmts + 1),
    step_errors := jsSlice r.step_errors 1 (nStmts + 1) }

/-! ### The row projector `parse` -/

/-- JavaScript `String.prototype.toLowerCase` on the ASCII strings that
decltypes are (character-wise ASCII lower-casing). -/
def toLowerStr (s : String) : String := String.mk (s.data.map Char.toLower)

/-- Truthiness of an optional string, as tested by `if (c.name)` and
`if (c.decltype)`: absent and empty are both falsy. -/
def strTruthy : Option String → Bool
  | none => false
  | some s => !s.isEmpty

/-- A projected row: a JavaScript object, i.e. an insertion-ordered map
from column name to decoded value. -/
abbrev RowOut := List (String × Decoded)

/-- JavaScript object property assignment: overwrite in place when the key
exists, append otherwise. -/
def jsObjSet (row : RowOut) (k : String) (d : Decoded) : RowOut :=
  if row.any (fun p => p.1 = k) then
    row.map (fun p => if p.1 = k then (k, d) else p)
  else row ++ [(k, d)]

/-- A map from column names to transformer functions, modelled as an
association list (a transformer, being a function, is always truthy). -/
abbrev TxMap := List (String × (Decoded → Decoded))

/-- The `options` parameter of `parse`: absent, a mode token (a string),
or a transformer map (any other object). -/
inductive ParseOptions where
  | noOpts : ParseOptions
  | mode : String → ParseOptions
  | transformers : TxMap → ParseOptions

/-- The mode `parse` decodes with: the options string when `typeof
options === 'string'`, otherwise undefined. -/
def optMode : ParseOptions → Option String
  | ParseOptions.mode m => some m
  | _ => none

/-- The transformer map `parse` uses: the options object when it is one,
otherwise the empty object. -/
def optTx : ParseOptions → TxMap
  | ParseOptions.transformers t => t
  | _ => []

/-- Retagging of one value by one column, as the source performs it in
place just before decoding (`v.type = c.decltype.toLowerCase()`):
overwrite the `type` discriminant with the lower-cased decltype when the
decltype is truthy. -/
def retag (c : Col) (v : JsValue) : JsValue :=
  if strTruthy c.decltype then { v with type := toLowerStr (c.decltype.getD "") } else v

/-- The inner column loop of `parse` on one row.  Walks the columns with
the row's values in lockstep (the source indexes `tmp[k]` by the column
index); a truthy-named column beyond the row's length dereferences
`undefined` and throws (`none`).  For a truthy-named column the value is
first retagged in place when the decltype is truthy, then decoded and
assigned to `row[c.name]`, and when a transformer is registered the field
is assigned again with the transformed value.  Returns the built row
object together with the row's values after mutation. -/
def parseRowGo (mode : Option String) (tx : TxMap) :
    List Col → List JsValue → RowOut → Option (RowOut × List JsValue)
  | [], vals, row => some (row, vals)
  | c :: cs, vals, row =>
    if strTruthy c.name then
      match vals with
      | [] => none
      | v :: vs =>
        let v' := retag c v
        match decode v' mode with
        | none => none
        | some d =>
          let nm := c.name.getD ""
          let row1 := jsObjSet row nm d
          let row2 := match tx.lookup nm with
            | some f => jsObjSet row1 nm (f d)
            | none => row1
          match parseRowGo mode tx cs vs row2 with
          | none => none
          | some (r, vs') => some (r, v' :: vs')
    else
      match vals with
      | [] =>
        match parseRowGo mode tx cs [] row with
        | none => none
        | some (r, vs') => some (r, vs')
      | v :: vs =>
        match parseRowGo mode tx cs vs row with
        | none => none
        | some (r, vs') => some (r, v :: vs')

/-- The outer row loop of `parse`: project every row, collecting the
projected objects and the mutated rows. -/
def parseRows (mode : Option String) (tx : TxMap) (cols : List Col) :
    List (List JsValue) → Option (List (RowOut × List JsValue))
  | [] => some []
  | r :: rs =>
    match parseRowGo mode tx cols r [] with
    | none => none
    | some p =>
      match parseRows mode tx cols rs with
      | none => none
      | some ps => some (p :: ps)

/-- The `parse` function of the source.  Dispatches on the shape of
`options`, projects each row in order, and — because the source mutates
the value objects inside `result.rows` in place — returns, alongside the
projected rows, the state the caller's `StmtResult` is left in.  `none`
models a thrown exception. -/
def parse (result : StmtResult) (options : ParseOptions) :
    Option (List RowOut × StmtResult) :=
  match parseRows (optMode options) (optTx options) result.cols result.rows with
  | none => none
  | some ps => some (ps.map Prod.fst, { result with rows := ps.map Prod.snd })

/-- Application of a column's registered transformer, if any, to the
already-decoded value. -/
def applyTx (tx : TxMap) (nm : String) (d : Decoded) : Decoded :=
  match tx.lookup nm with
  | some f => f d
  | none => d

/-- Declarative projection of one row, following the spec's words: walk
the columns paired with the row's values in column order; a column with a
truthy name inserts its name mapped to the transformed decode of the
retagged value, any other column inserts nothing. -/
def projectRowSpec (mode : Option String) (tx : TxMap) (cols : List Col)
    (vals : List JsValue) (row : RowOut) : Option RowOut :=
  match cols, vals with
  | [], _ => some row
  | _ :: _, [] => none
  | c :: cs, v :: vs =>
    if strTruthy c.name then
      match decode (retag c v) mode with
      | none => none
      | some d =>
        projectRowSpec mode tx cs vs
          (jsObjSet row (c.name.getD "") (applyTx tx (c.name.getD "") d))
    else projectRowSpec mode tx cs vs row

/-- Declarative statement of the mutation `parse` performs on one row:
every value in a truthy-named column is retagged, every other value is
left alone. -/
def mutateRowSpec (cols : List Col) (vals : List JsValue) : List JsValue :=
  (cols.zip vals).map (fun p => if strTruthy p.1.name then retag p.1 p.2 else p.2)

/-! ### Concrete fixtures (mirroring the repository's test data) -/

/-- The `select 1` statement result of the repository's tests. -/
def resSelect1 : StmtResult :=
  { cols := [{ name := some "1" }], rows := [[mkInteger "1"]] }

/-- The multi-column, heterogeneously typed statement result of the
repository's tests (the float narrowed to an integral value so that
equalities evaluate). -/
def resMulti : StmtResult :=
  { cols := [{ name := some "name" }, { name := some "age" }],
    rows := [[mkText "lukeed", mkFloat (JsNumber.val 34)],
             [mkText "foobar", mkText "unknown"],
             [mkText "anon", mkNull]] }

/-- The transformer-test statement result of the repository's tests. -/
def resConfig : StmtResult :=
  { cols := [{ name := some "nm" }, { name := some "config", decltype := some "TEXT" }],
    rows := [[mkText "foo", mkText "cfg"]] }

/-- A transformer map registering a transformer for the `config` column. -/
def txConfig : TxMap := [("config", fun _ => Decoded.str "parsed")]

/-- The decltype-test statement result of the repository's tests. -/
def resDecl : StmtResult :=
  { cols := [{ name := some "uid", decltype := some "TEXT" }],
    rows := [[mkText "01GW3"]] }

/-- A statement result with an empty-string column name. -/
def resCeEmptyName : StmtResult :=
  { cols := [{ name := some "" }], rows := [[mkText "x"]] }

/-- A statement result with decltypes on an unnamed column and an
empty-decltype named column. -/
def resCeUnnamedDecl : StmtResult :=
  { cols := [{ name := none, decltype := some "TEXT" },
             { name := some "a", decltype := some "" }],
    rows := [[mkInteger "1", mkInteger "2"]] }

/-- A server batch result with four step entries, as the server returns
for a one-statement transaction (BEGIN, the statement, COMMIT, ROLLBACK). -/
def rBatch4 : BatchResult :=
  { step_results := [some resSelect1, some resMulti, none, none],
    step_errors := [none, none, some { message := "boom" }, none] }

/-! ### Lemmas: decimal rendering and parsing agree -/

/-- The numeral written by `f64Overflow` is `2 ^ 1024`. -/
theorem f64Overflow_eq : f64Overflow = 2 ^ 1024 := by norm_num [f64Overflow]

/-- Reading back a digit character. -/
theorem charDigit_digitChar (d : Nat) (h : d < 10) :
    charDigit (digitChar d) = some d := by
  interval_cases d <;> decide

/-- Digit characters are digits. -/
theorem isDigit_digitChar (d : Nat) (h : d < 10) :
    (digitChar d).isDigit = true := by
  interval_cases d <;> decide

/-- Every character of the decimal rendering is a digit. -/
theorem natDigitsRev_isDigit (n : Nat) : ∀ c ∈ natDigitsRev n, c.isDigit = true := by
  induction n using Nat.strong_induction_on with
  | _ n ih =>
    rw [natDigitsRev]
    split
    · intro c hc
      rcases List.mem_singleton.mp hc with rfl
      exact isDigit_digitChar _ (by omega)
    · intro c hc
      rcases List.mem_cons.mp hc with rfl | hc
      · exact isDigit_digitChar _ (by omega)
      · exact ih (n / 10) (Nat.div_lt_self (by omega) (by omega)) c hc

/-- The decimal rendering is never empty. -/
theorem natDigitsRev_ne_nil (n : Nat) : natDigitsRev n ≠ [] := by
  rw [natDigitsRev]
  split <;> simp

/-- Parsing distributes over appending digit runs. -/
theorem parseNatGo_append (l1 l2 : List Char) (a : Nat) :
    parseNatGo (l1 ++ l2) a = (parseNatGo l1 a).bind (fun b => parseNatGo l2 b) := by
  induction l1 generalizing a with
  | nil => simp [parseNatGo]
  | cons c cs ih =>
    simp only [List.cons_append, parseNatGo]
    cases hcd : charDigit c with
    | none => simp
    | some d => simp [ih]

/-- Parsing the reversed digit list of `n` from accumulator `a` yields
`a` shifted past the digits plus `n`. -/
theorem parseNatGo_natDigitsRev (n : Nat) : ∀ a : Nat,
    parseNatGo (natDigitsRev n).reverse a =
      some (a * 10 ^ (natDigitsRev n).length + n) := by
  induction n using Nat.strong_induction_on with
  | _ n ih =>
    intro a
    rw [natDigitsRev]
    split
    · simp [parseNatGo, charDigit_digitChar n (by omega)]
    · rw [List.reverse_cons, parseNatGo_append,
        ih (n / 10) (Nat.div_lt_self (by omega) (by omega)) a]
      simp [parseNatGo, charDigit_digitChar (n % 10) (by omega)]
      have h10 : n % 10 + 10 * (n / 10) = n := Nat.mod_add_div n 10
      ring_nf
      omega

/-- Parsing the canonical decimal rendering of a natural number. -/
theorem parseNat_natToDecimal (n : Nat) :
    parseNat (natToDecimal n).data = some n := by
  have hne : (natDigitsRev n).reverse ≠ [] := by
    simpa using natDigitsRev_ne_nil n
  simp only [natToDecimal, parseNat]
  rw [if_neg (by simpa [List.isEmpty_iff] using hne)]
  simpa using parseNatGo_natDigitsRev n 0

/-- Parsing the canonical decimal rendering of an integer, i.e. the
JavaScript coercions invert bigint stringification. -/
theorem parseIntLit_intToDecimal (i : Int) :
    parseIntLit (intToDecimal i) = some i := by
  have hhead : ∀ n : Nat, ∀ c cs, (natDigitsRev n).reverse = c :: cs →
      c ≠ '+' ∧ c ≠ '-' := by
    intro n c cs hc
    have hmem : c ∈ natDigitsRev n := by
      have : c ∈ (natDigitsRev n).reverse := by rw [hc]; simp
      simpa using this
    have hd := natDigitsRev_isDigit n c hmem
    constructor <;> rintro rfl <;> simp at hd
  cases i with
  | ofNat n =>
    have hne : (natDigitsRev n).reverse ≠ [] := by
      simpa using natDigitsRev_ne_nil n
    cases hc : (natDigitsRev n).reverse with
    | nil => exact absurd hc hne
    | cons c cs =>
      obtain ⟨h1, h2⟩ := hhead n c cs hc
      have hdata : (intToDecimal (Int.ofNat n)).data = c :: cs := by
        simp [intToDecimal, natToDecimal, hc]
      have hp : parseNat (c :: cs) = some n := by
        rw [← hc]
        simpa [natToDecimal] using parseNat_natToDecimal n
      rw [parseIntLit, hdata]
      show parseSigned c cs = some (Int.ofNat n)
      simp [parseSigned, h1, h2, hp]
  | negSucc m =>
    have hdata : (intToDecimal (Int.negSucc m)).data =
        '-' :: (natDigitsRev (m + 1)).reverse := by
      simp [intToDecimal, natToDecimal]
    have hp : parseNat (natDigitsRev (m + 1)).reverse = some (m + 1) := by
      simpa [natToDecimal] using parseNat_natToDecimal (m + 1)
    rw [parseIntLit, hdata]
    show parseSigned '-' (natDigitsRev (m + 1)).reverse = some (Int.negSucc m)
    rw [parseSigned, if_neg (by decide), if_pos rfl, hp]
    simp [Int.negSucc_eq]

/-! ### Lemmas: base64 encode and forgiving decode agree -/

/-- Decoding a character of the alphabet recovers its sextet. -/
theorem b64decChar_b64char : ∀ n, n < 64 → b64decChar (b64char n) = some n := by
  decide

/-- Alphabet characters are not whitespace. -/
theorem b64char_not_ws : ∀ n, n < 64 → isB64Ws (b64char n) = false := by
  decide

/-- Alphabet characters are not padding. -/
theorem b64char_ne_eq : ∀ n, n < 64 → b64char n ≠ '=' := by
  decide

/-- The encoder always emits alphabet characters. -/
theorem b64char_mem (n : Nat) : b64char n ∈ b64alphabet := by
  unfold b64char
  by_cases h : n < b64alphabet.length
  · rw [List.getD_eq_getElem _ _ h]
    exact List.getElem_mem h
  · rw [List.getD_eq_default _ _ (Nat.le_of_not_lt h)]
    decide

/-- All sextets produced from bytes are below 64. -/
theorem bytesToSextets_lt : ∀ bs : List Nat, (∀ b ∈ bs, b < 256) →
    ∀ x ∈ bytesToSextets bs, x < 64
  | x :: y :: z :: rest, h => by
    have hx : x < 256 := h x (by simp)
    have hy : y < 256 := h y (by simp)
    have hz : z < 256 := h z (by simp)
    have hrest := bytesToSextets_lt rest (fun b hb => h b (by simp [hb]))
    intro s hs
    simp only [bytesToSextets, List.mem_cons] at hs
    rcases hs with rfl | rfl | rfl | rfl | hs
    · omega
    · omega
    · omega
    · omega
    · exact hrest s hs
  | [x, y], h => by
    have hx : x < 256 := h x (by simp)
    have hy : y < 256 := h y (by simp)
    intro s hs
    simp only [bytesToSextets, List.mem_cons] at hs
    rcases hs with rfl | rfl | rfl | hs
    · omega
    · omega
    · omega
    · simp at hs
  | [x], h => by
    have hx : x < 256 := h x (by simp)
    intro s hs
    simp only [bytesToSextets, List.mem_cons] at hs
    rcases hs with rfl | rfl | hs
    · omega
    · omega
    · simp at hs
  | [], _ => by intro s hs; simp [bytesToSextets] at hs

/-- Unpacking the packed sextets recovers the bytes. -/
theorem decodeQuads_bytesToSextets : ∀ bs : List Nat, (∀ b ∈ bs, b < 256) →
    decodeQuads (bytesToSextets bs) = bs
  | x :: y :: z :: rest, h => by
    have hx : x < 256 := h x (by simp)
    have hy : y < 256 := h y (by simp)
    have hz : z < 256 := h z (by simp)
    have hrest := decodeQuads_bytesToSextets rest (fun b hb => h b (by simp [hb]))
    simp only [bytesToSextets, decodeQuads, hrest, List.cons.injEq, and_true,
      true_and]
    omega
  | [x, y], h => by
    have hx : x < 256 := h x (by simp)
    have hy : y < 256 := h y (by simp)
    simp only [bytesToSextets, decodeQuads, List.cons.injEq, and_true, true_and]
    omega
  | [x], h => by
    have hx : x < 256 := h x (by simp)
    simp only [bytesToSextets, decodeQuads, List.cons.injEq, and_true, true_and]
    omega
  | [], _ => rfl

/-- Number of sextets in terms of the byte count. -/
theorem bytesToSextets_length : ∀ bs : List Nat,
    (bytesToSextets bs).length = 4 * (bs.length / 3) + (bs.length % 3) +
      (if bs.length % 3 = 0 then 0 else 1)
  | x :: y :: z :: rest => by
    have hrest := bytesToSextets_length rest
    simp only [bytesToSextets, List.length_cons, hrest]
    have h3 : (rest.length + 1 + 1 + 1) % 3 = rest.length % 3 := by omega
    have h4 : (rest.length + 1 + 1 + 1) / 3 = rest.length / 3 + 1 := by omega
    simp only [h3, h4]
    by_cases h0 : rest.length % 3 = 0 <;> simp only [h0, if_pos, if_neg] <;>
      simp [h0] <;> omega
  | [x, y] => by simp [bytesToSextets]
  | [x] => by simp [bytesToSextets]
  | [] => by simp [bytesToSextets]

/-- Padding emitted for a byte count divisible by three. -/
theorem padFor_mod0 (n : Nat) (h : n % 3 = 0) : padFor n = [] := by
  unfold padFor; rw [h]

/-- Padding emitted for a byte count `≡ 1 (mod 3)`. -/
theorem padFor_mod1 (n : Nat) (h : n % 3 = 1) : padFor n = ['=', '='] := by
  unfold padFor; rw [h]

/-- Padding emitted for a byte count `≡ 2 (mod 3)`. -/
theorem padFor_mod2 (n : Nat) (h : n % 3 = 2) : padFor n = ['='] := by
  unfold padFor; rw [h]

/-- The character count `btoa` emits is always a multiple of four. -/
theorem btoaChars_length_mod (bs : List Nat) : (btoaChars bs).length % 4 = 0 := by
  have hs := bytesToSextets_length bs
  have hlt : bs.length % 3 < 3 := Nat.mod_lt _ (by omega)
  rcases h : bs.length % 3 with _ | _ | k
  · simp [btoaChars, hs, padFor_mod0 _ h, h]
    try omega
  · simp [btoaChars, hs, padFor_mod1 _ h, h]
    try omega
  · rw [h] at hlt
    obtain rfl : k = 0 := by omega
    simp [btoaChars, hs, padFor_mod2 _ h, h]
    omega

/-- No whitespace among the characters `btoa` emits. -/
theorem btoaChars_no_ws (bs : List Nat) (h : ∀ b ∈ bs, b < 256) :
    ∀ c ∈ btoaChars bs, isB64Ws c = false := by
  intro c hc
  simp only [btoaChars, List.mem_append, List.mem_map] at hc
  rcases hc with ⟨s, hs, rfl⟩ | hc
  · exact b64char_not_ws s (bytesToSextets_lt bs h s hs)
  · have : c = '=' := by
      unfold padFor at hc
      split at hc <;> simp at hc <;> tauto
    rw [this]; decide

/-- A list of alphabet characters never ends in padding. -/
theorem getLast?_ne_pad (m : List Char) (hm : ∀ c ∈ m, c ≠ '=') :
    m.getLast? ≠ some '=' := by
  cases m with
  | nil => simp
  | cons a t =>
    intro hcontra
    rw [List.getLast?_eq_getLast_of_ne_nil (by simp)] at hcontra
    simp only [Option.some.injEq] at hcontra
    exact hm _ (List.getLast_mem (by simp)) hcontra

/-- Stripping trailing padding after no padding at all. -/
theorem dropPad_of_no_pad (m : List Char) (hm : ∀ c ∈ m, c ≠ '=') :
    dropPad m = m := by
  unfold dropPad
  rw [if_neg (getLast?_ne_pad m hm)]

/-- Stripping one trailing padding character. -/
theorem dropPad_one (m : List Char) (hm : ∀ c ∈ m, c ≠ '=') :
    dropPad (m ++ ['=']) = m := by
  unfold dropPad
  rw [if_pos (by rw [List.getLast?_concat]), List.dropLast_concat,
    if_neg (getLast?_ne_pad m hm)]

/-- Stripping two trailing padding characters. -/
theorem dropPad_two (m : List Char) :
    dropPad (m ++ ['=', '=']) = m := by
  have hsplit : m ++ ['=', '='] = (m ++ ['=']) ++ ['='] := by simp
  unfold dropPad
  rw [hsplit, if_pos (by rw [List.getLast?_concat]), List.dropLast_concat,
    if_pos (by rw [List.getLast?_concat]), List.dropLast_concat]

/-- Stripping the padding recovers exactly the alphabet characters. -/
theorem dropPad_btoaChars (bs : List Nat) (h : ∀ b ∈ bs, b < 256) :
    dropPad (btoaChars bs) = (bytesToSextets bs).map b64char := by
  have hm : ∀ c ∈ (bytesToSextets bs).map b64char, c ≠ '=' := by
    intro c hc
    simp only [List.mem_map] at hc
    obtain ⟨s, hs, rfl⟩ := hc
    exact b64char_ne_eq s (bytesToSextets_lt bs h s hs)
  unfold btoaChars
  rcases hmod : bs.length % 3 with _ | _ | k
  · rw [padFor_mod0 _ hmod, List.append_nil, dropPad_of_no_pad _ hm]
  · rw [padFor_mod1 _ hmod, dropPad_two]
  · have hlt : bs.length % 3 < 3 := Nat.mod_lt _ (by omega)
    rw [hmod] at hlt
    obtain rfl : k = 0 := by omega
    rw [padFor_mod2 _ hmod, dropPad_one _ hm]

/-- Decoding the emitted alphabet characters recovers the sextets. -/
theorem mapOrFail_b64decChar (sx : List Nat) (h : ∀ s ∈ sx, s < 64) :
    mapOrFail b64decChar (sx.map b64char) = some sx := by
  induction sx with
  | nil => rfl
  | cons s rest ih =>
    have hs : s < 64 := h s (by simp)
    have hr := ih (fun a ha => h a (by simp [ha]))
    rw [List.map_cons, mapOrFail, b64decChar_b64char s hs, hr]

/-- The sextet count is never `≡ 1 (mod 4)`. -/
theorem bytesToSextets_length_mod (bs : List Nat) :
    (bytesToSextets bs).length % 4 ≠ 1 := by
  rw [bytesToSextets_length bs]
  have hlt : bs.length % 3 < 3 := Nat.mod_lt _ (by omega)
  rcases h : bs.length % 3 with _ | _ | k
  · simp [h]
    try omega
  · simp [h]
    try omega
  · rw [h] at hlt
    obtain rfl : k = 0 := by omega
    simp [h]
    try omega

/-- Forgiving base64 decoding inverts `btoa` on every byte list. -/
theorem atob_btoaChars (bs : List Nat) (h : ∀ b ∈ bs, b < 256) :
    atob (String.mk (btoaChars bs)) = some bs := by
  have hdata : (String.mk (btoaChars bs)).data = btoaChars bs := rfl
  have hfil : (btoaChars bs).filter (fun c => !isB64Ws c) = btoaChars bs := by
    rw [List.filter_eq_self]
    intro c hc
    simp [btoaChars_no_ws bs h c hc]
  rw [atob, hdata, hfil, atobStrip, if_pos (btoaChars_length_mod bs),
    dropPad_btoaChars bs h, atobCore,
    if_neg (by simpa using bytesToSextets_length_mod bs),
    mapOrFail_b64decChar _ (bytesToSextets_lt bs h)]
  show some (decodeQuads (bytesToSextets bs)) = some bs
  rw [decodeQuads_bytesToSextets bs h]

/-- Forgiving base64 decoding inverts the platform encoder. -/
theorem atob_btoa (bs : List (Fin 256)) :
    atob (btoa bs) = some (bs.map Fin.val) := by
  unfold btoa
  exact atob_btoaChars (bs.map Fin.val) (by
    intro b hb
    simp only [List.mem_map] at hb
    obtain ⟨f, _, rfl⟩ := hb
    exact f.isLt)

/-! ### Lemmas: the transaction step graph -/

/-- The conditioned middle section has one step per statement. -/
theorem stmtSteps_length : ∀ (i : Nat) (l : List Stmt),
    (stmtSteps i l).length = l.length
  | _, [] => rfl
  | i, _ :: rest => by simp [stmtSteps, stmtSteps_length (i + 1) rest]

/-- Indexing the conditioned middle section: the step for the statement
at offset `j` is conditioned on `Ok (i + j)`. -/
theorem stmtSteps_getElem? : ∀ (i : Nat) (l : List Stmt) (j : Nat),
    (stmtSteps i l)[j]? = (l[j]?).map (fun s =>
      { stmt := s,
        condition := some (BatchCond.and
          [BatchCond.ok (i + j), BatchCond.not BatchCond.isAutocommit]) })
  | i, [], j => by simp [stmtSteps]
  | i, s :: rest, 0 => by simp [stmtSteps]
  | i, s :: rest, j + 1 => by
    have := stmtSteps_getElem? (i + 1) rest j
    simp only [stmtSteps, List.getElem?_cons_succ, this]
    have harith : i + 1 + j = i + (j + 1) := by omega
    rw [harith]

/-! ### Lemmas: the row projector -/

/-- Assigning the same key twice in a row collapses to the last
assignment. -/
theorem jsObjSet_collapse (row : RowOut) (k : String) (a b : Decoded) :
    jsObjSet (jsObjSet row k a) k b = jsObjSet row k b := by
  unfold jsObjSet
  by_cases hk : row.any (fun p => p.1 = k)
  · rw [if_pos hk]
    have hany : (row.map (fun p => if p.1 = k then (k, a) else p)).any
        (fun p => p.1 = k) = true := by
      rw [List.any_map]
      rw [List.any_eq_true] at hk ⊢
      obtain ⟨p, hp, hpk⟩ := hk
      refine ⟨p, hp, ?_⟩
      simp only [Function.comp_apply, decide_eq_true_eq] at hpk ⊢
      simp [hpk]
    rw [if_pos hany, if_pos hk, List.map_map]
    apply List.map_congr_left
    intro p _
    by_cases hpk : p.1 = k <;> simp [hpk]
  · rw [if_neg hk]
    have hany : (row ++ [(k, a)]).any (fun p => p.1 = k) = true := by
      simp [List.any_append]
    rw [if_pos hany, if_neg hk, List.map_append]
    have hrow : row.map (fun p => if p.1 = k then (k, b) else p) = row := by
      conv_rhs => rw [← List.map_id row]
      apply List.map_congr_left
      intro p hp
      have : ¬(p.1 = k) := by
        intro he
        exact hk (List.any_eq_true.mpr ⟨p, hp, by simp [he]⟩)
      simp [this]
    rw [hrow]
    simp

/-- One-step unfolding of the declarative mutation. -/
theorem mutateRowSpec_cons (c : Col) (cs : List Col) (v : JsValue)
    (vs : List JsValue) :
    mutateRowSpec (c :: cs) (v :: vs) =
      (if strTruthy c.name then retag c v else v) :: mutateRowSpec cs vs := by
  simp [mutateRowSpec]

/-- A successful `mapOrFail` preserves length. -/
theorem mapOrFail_length {f : α → Option β} :
    ∀ {l : List α} {res : List β}, mapOrFail f l = some res →
      res.length = l.length := by
  intro l
  induction l with
  | nil => intro res h; simp [mapOrFail] at h; simp [← h]
  | cons a t ih =>
    intro res h
    simp only [mapOrFail] at h
    cases hf : f a with
    | none => rw [hf] at h; simp at h
    | some b =>
      rw [hf] at h
      cases ht : mapOrFail f t with
      | none => rw [ht] at h; simp at h
      | some bs =>
        rw [ht] at h
        simp only [Option.some.injEq] at h
        subst h
        simp [ih ht]

/-- Element-wise reading of a successful `mapOrFail`. -/
theorem mapOrFail_getElem? {f : α → Option β} :
    ∀ {l : List α} {res : List β}, mapOrFail f l = some res →
      ∀ i : Nat, res[i]? = (l[i]?).bind f := by
  intro l
  induction l with
  | nil => intro res h i; simp [mapOrFail] at h; subst h; simp
  | cons a t ih =>
    intro res h i
    simp only [mapOrFail] at h
    cases hf : f a with
    | none => rw [hf] at h; simp at h
    | some b =>
      rw [hf] at h
      cases ht : mapOrFail f t with
      | none => rw [ht] at h; simp at h
      | some bs =>
        rw [ht] at h
        simp only [Option.some.injEq] at h
        subst h
        cases i with
        | zero => simp [hf]
        | succ j => simpa using ih ht j

/-- `mapOrFail` succeeds when every element does. -/
theorem mapOrFail_isSome {f : α → Option β} :
    ∀ {l : List α}, (∀ a ∈ l, (f a).isSome) →
      ∃ res, mapOrFail f l = some res := by
  intro l
  induction l with
  | nil => intro _; exact ⟨[], rfl⟩
  | cons a t ih =>
    intro h
    obtain ⟨b, hb⟩ := Option.isSome_iff_exists.mp (h a (by simp))
    obtain ⟨bs, hbs⟩ := ih (fun x hx => h x (by simp [hx]))
    exact ⟨b :: bs, by simp [mapOrFail, hb, hbs]⟩

/-- The imperative column loop computes the declarative projection and
performs exactly the declarative mutation, on rows of matching width. -/
theorem parseRowGo_spec (mode : Option String) (tx : TxMap) :
    ∀ (cols : List Col) (vals : List JsValue) (row : RowOut),
    vals.length = cols.length →
    parseRowGo mode tx cols vals row =
      (projectRowSpec mode tx cols vals row).map
        (fun r => (r, mutateRowSpec cols vals)) := by
  intro cols
  induction cols with
  | nil =>
    intro vals row hlen
    have : vals = [] := List.eq_nil_of_length_eq_zero (by simpa using hlen)
    subst this
    simp [parseRowGo, projectRowSpec, mutateRowSpec]
  | cons c cs ih =>
    intro vals row hlen
    cases vals with
    | nil => simp at hlen
    | cons v vs =>
      have hlen' : vs.length = cs.length := by simpa using hlen
      by_cases hname : strTruthy c.name
      · simp only [parseRowGo, projectRowSpec, hname, if_true]
        cases hdec : decode (retag c v) mode with
        | none => simp
        | some d =>
          simp only [Option.map]
          have hrow2 :
              (match tx.lookup (c.name.getD "") with
                | some f => jsObjSet (jsObjSet row (c.name.getD "") d)
                    (c.name.getD "") (f d)
                | none => jsObjSet row (c.name.getD "") d) =
              jsObjSet row (c.name.getD "")
                (applyTx tx (c.name.getD "") d) := by
            unfold applyTx
            cases tx.lookup (c.name.getD "") with
            | none => rfl
            | some f => exact jsObjSet_collapse row (c.name.getD "") d (f d)
          rw [hrow2, ih vs (jsObjSet row (c.name.getD "")
            (applyTx tx (c.name.getD "") d)) hlen']
          cases projectRowSpec mode tx cs vs
              (jsObjSet row (c.name.getD "") (applyTx tx (c.name.getD "") d)) with
          | none => simp
          | some r => simp [mutateRowSpec_cons, hname]
      · simp only [parseRowGo, projectRowSpec, hname, if_false]
        rw [ih vs row hlen']
        cases projectRowSpec mode tx cs vs row with
        | none => simp
        | some r => simp [mutateRowSpec_cons, hname]

/-- The outer row loop, described declaratively. -/
theorem parseRows_spec (mode : Option String) (tx : TxMap) (cols : List Col) :
    ∀ rows : List (List JsValue), (∀ r ∈ rows, r.length = cols.length) →
    parseRows mode tx cols rows =
      (mapOrFail (fun r => projectRowSpec mode tx cols r []) rows).map
        (fun outs => outs.zip (rows.map (mutateRowSpec cols))) := by
  intro rows
  induction rows with
  | nil => intro _; rfl
  | cons r rs ih =>
    intro h
    have hr : r.length = cols.length := h r (by simp)
    have hrs := ih (fun a ha => h a (by simp [ha]))
    simp only [parseRows, mapOrFail,
      parseRowGo_spec mode tx cols r [] hr, hrs]
    cases projectRowSpec mode tx cols r [] with
    | none => simp
    | some o =>
      cases mapOrFail (fun a => projectRowSpec mode tx cols a []) rs with
      | none => simp
      | some outs => simp

/-- `parse`, described declaratively: the projected rows are the
declarative projections of the input rows, and the returned statement
result is the input with every row mutated as described, all other fields
untouched. -/
theorem parse_spec (res : StmtResult) (opts : ParseOptions)
    (hlen : ∀ r ∈ res.rows, r.length = res.cols.length) :
    parse res opts =
      (mapOrFail (fun r => projectRowSpec (optMode opts) (optTx opts) res.cols r [])
          res.rows).map
        (fun outs => (outs, { res with rows := res.rows.map (mutateRowSpec res.cols) })) := by
  unfold parse
  rw [parseRows_spec (optMode opts) (optTx opts) res.cols res.rows hlen]
  cases hmf : mapOrFail (fun r => projectRowSpec (optMode opts) (optTx opts) res.cols r [])
      res.rows with
  | none => simp
  | some outs =>
    have hlen2 : outs.length = res.rows.length := mapOrFail_length hmf
    simp only [Option.map]
    rw [List.map_fst_zip outs _ (by simp [hlen2]),
      List.map_snd_zip outs _ (by simp [hlen2])]

/-- The declarative projection succeeds when every truthy-named cell
decodes. -/
theorem projectRowSpec_isSome (mode : Option String) (tx : TxMap) :
    ∀ (cols : List Col) (vals : List JsValue) (row : RowOut),
    vals.length = cols.length →
    (∀ p ∈ cols.zip vals, strTruthy p.1.name → (decode (retag p.1 p.2) mode).isSome) →
    (projectRowSpec mode tx cols vals row).isSome := by
  intro cols
  induction cols with
  | nil =>
    intro vals row hlen _
    have : vals = [] := List.eq_nil_of_length_eq_zero (by simpa using hlen)
    subst this
    simp [projectRowSpec]
  | cons c cs ih =>
    intro vals row hlen hdec
    cases vals with
    | nil => simp at hlen
    | cons v vs =>
      have hlen' : vs.length = cs.length := by simpa using hlen
      have hdec' : ∀ p ∈ cs.zip vs, strTruthy p.1.name →
          (decode (retag p.1 p.2) mode).isSome := by
        intro p hp
        exact hdec p (by simp [List.zip_cons_cons, hp])
      by_cases hname : strTruthy c.name
      · have hd := hdec (c, v) (by simp [List.zip_cons_cons]) hname
        obtain ⟨d, hd⟩ := Option.isSome_iff_exists.mp hd
        simp only [projectRowSpec, hname, if_true, hd]
        exact ih vs _ hlen' hdec'
      · simp only [projectRowSpec, hname, if_false]
        exact ih vs row hlen' hdec'

/-! ### The claims -/

/-- C1: for every transaction mode and statement list, the synthesized
batch has `N + 3` steps: step 0 is `BEGIN {mode}` with no condition, step
`i + 1` carries input statement `i` conditioned on
`And(Ok(i), Not(IsAutocommit))` — `i` being the synthesized index of the
immediately preceding step — step `N + 1` is an unconditioned `COMMIT`,
and step `N + 2` is `ROLLBACK` conditioned on `Not(Ok(N + 1))`, the
`COMMIT` step's actual position. -/
theorem transaction_step_graph (m : TransactionMode) (stmts : List Stmt) :
    (transactionSteps m stmts).length = stmts.length + 3
    ∧ (transactionSteps m stmts)[0]? =
        some { stmt := { sql := "BEGIN " ++ m.sql }, condition := none }
    ∧ (∀ i, ∀ h : i < stmts.length, (transactionSteps m stmts)[i + 1]? =
        some { stmt := stmts.get ⟨i, h⟩,
               condition := some (BatchCond.and
                 [BatchCond.ok i, BatchCond.not BatchCond.isAutocommit]) })
    ∧ (transactionSteps m stmts)[stmts.length + 1]? =
        some { stmt := { sql := "COMMIT" }, condition := none }
    ∧ (transactionSteps m stmts)[stmts.length + 2]? =
        some { stmt := { sql := "ROLLBACK" },
               condition := some (BatchCond.not (BatchCond.ok (stmts.length + 1))) } := by
  refine ⟨?_, ?_, ?_, ?_, ?_⟩
  · simp [transactionSteps, stmtSteps_length]
  · simp [transactionSteps]
  · intro i h
    simp only [transactionSteps, List.getElem?_cons_succ]
    rw [List.getElem?_append_left (by rw [stmtSteps_length]; exact h)]
    rw [stmtSteps_getElem?]
    simp [List.getElem?_eq_getElem h]
  · simp only [transactionSteps, List.getElem?_cons_succ]
    rw [List.getElem?_append_right (by rw [stmtSteps_length])]
    simp [stmtSteps_length]
  · simp only [transactionSteps, List.getElem?_cons_succ]
    rw [List.getElem?_append_right (by rw [stmtSteps_length]; omega)]
    simp [stmtSteps_length]

/-- Witness for C1 at a concrete two-statement transaction. -/
theorem transaction_step_graph_witness :
    (transactionSteps TransactionMode.deferred
      [{ sql := "S1" }, { sql := "S2" }]).length = 5
    ∧ (transactionSteps TransactionMode.deferred
        [{ sql := "S1" }, { sql := "S2" }])[1]? =
      some { stmt := { sql := "S1" },
             condition := some (BatchCond.and
               [BatchCond.ok 0, BatchCond.not BatchCond.isAutocommit]) } := by
  have h := transaction_step_graph TransactionMode.deferred
    [{ sql := "S1" }, { sql := "S2" }]
  refine ⟨h.1, ?_⟩
  have h2 := h.2.2.1 0 (by norm_num)
  simpa using h2

/-- C2: slicing the server's `N + 3`-entry batch result with
`slice(1, N + 1)` leaves exactly `N` entries in each sequence, entry `j`
being the server's entry for synthesized step `j + 1`, the step carrying
input statement `j`. -/
theorem transaction_result_alignment (n : Nat) (r : BatchResult)
    (h1 : r.step_results.length = n + 3) (h2 : r.step_errors.length = n + 3) :
    (transactionPost n r).step_results.length = n
    ∧ (transactionPost n r).step_errors.length = n
    ∧ (∀ j, j < n → (transactionPost n r).step_results[j]? = r.step_results[j + 1]?)
    ∧ (∀ j, j < n → (transactionPost n r).step_errors[j]? = r.step_errors[j + 1]?) := by
  refine ⟨?_, ?_, ?_, ?_⟩
  · simp [transactionPost, jsSlice, h1]
    try omega
  · simp [transactionPost, jsSlice, h2]
    try omega
  · intro j hj
    simp only [transactionPost, jsSlice, List.getElem?_drop, List.getElem?_take]
    rw [if_pos (by omega)]
    congr 1
    omega
  · intro j hj
    simp only [transactionPost, jsSlice, List.getElem?_drop, List.getElem?_take]
    rw [if_pos (by omega)]
    congr 1
    omega

/-- Witness for C2 at a concrete one-statement server result. -/
theorem transaction_result_alignment_witness :
    (transactionPost 1 rBatch4).step_results.length = 1
    ∧ (transactionPost 1 rBatch4).step_results[0]? = rBatch4.step_results[1]?
    ∧ (transactionPost 1 rBatch4).step_errors[0]? = rBatch4.step_errors[1]? := by
  have h := transaction_result_alignment 1 rBatch4 (by decide) (by decide)
  exact ⟨h.1, h.2.2.1 0 (by norm_num), h.2.2.2 0 (by norm_num)⟩

/-- C3: decoding a wire `Integer` carrying a valid optionally signed
base-10 literal yields the JavaScript numeric coercion of the literal
under mode `number` or no mode, the exact integer under mode `bigint`,
and the untouched literal text under mode `string`. -/
theorem decode_integer_modes (s : String) (i : Int) (h : parseIntLit s = some i) :
    decode (mkInteger s) none = some (Decoded.num (jsStringToNumber s))
    ∧ decode (mkInteger s) (some "number") = some (Decoded.num (jsStringToNumber s))
    ∧ decode (mkInteger s) (some "bigint") = some (Decoded.big i)
    ∧ decode (mkInteger s) (some "string") = some (Decoded.str s) := by
  refine ⟨?_, ?_, ?_, ?_⟩ <;>
    simp [decode, mkInteger, modeFalsyOrNumber, jsPlus, jsBigInt,
      fieldAsDecoded, h]

/-- Witness for C3 at the literal `123`. -/
theorem decode_integer_modes_witness :
    parseIntLit "123" = some 123
    ∧ decode (mkInteger "123") none = some (Decoded.num (JsNumber.val 123))
    ∧ decode (mkInteger "123") (some "bigint") = some (Decoded.big 123)
    ∧ decode (mkInteger "123") (some "string") = some (Decoded.str "123") := by
  have h := decode_integer_modes "123" 123 (by decide)
  refine ⟨by decide, ?_, h.2.2.1, h.2.2.2⟩
  rw [h.1]
  decide

/-- C4, counterexample: an unrecognized mode token does not collapse to
the `number` behavior — it returns the untouched literal text, the
`string` behavior. -/
theorem decode_unrecognized_mode_counterexample :
    decode (mkInteger "123") (some "int") = some (Decoded.str "123")
    ∧ decode (mkInteger "123") (some "int") ≠
        decode (mkInteger "123") (some "number")
    ∧ decode (mkInteger "123") (some "number") =
        some (Decoded.num (JsNumber.val 123)) := by
  decide

/-- C4, amended: decoding a wire `Integer` with any non-empty mode token
other than `number` and `bigint` does not raise and returns the literal
text unchanged, the same result as mode `string` (the empty-string mode,
being falsy, instead collapses to the `number` behavior). -/
theorem decode_unrecognized_mode_is_string (s m : String)
    (h1 : m ≠ "") (h2 : m ≠ "number") (h3 : m ≠ "bigint") :
    decode (mkInteger s) (some m) = some (Decoded.str s) := by
  simp [decode, mkInteger, modeFalsyOrNumber, fieldAsDecoded, h1, h2, h3]

/-- Witness for the amended C4 at the caller typo `int`. -/
theorem decode_unrecognized_mode_is_string_witness :
    decode (mkInteger "123") (some "int") = some (Decoded.str "123") :=
  decode_unrecognized_mode_is_string "123" "int" (by decide) (by decide)
    (by decide)

/-- C5: the blob decoder accepts the standard alphabet with or without
padding, but rejects (throws on) the URL-safe alphabet: `-w==` and `-w`
are the URL-safe encodings of the byte `0xFB`, whose standard encodings
`+w==` and `+w` decode fine. -/
theorem decode_blob_urlsafe_rejected :
    decode (mkBlob "+w==") none = some (Decoded.bytes [251])
    ∧ decode (mkBlob "+w") none = some (Decoded.bytes [251])
    ∧ decode (mkBlob "-w==") none = none
    ∧ decode (mkBlob "-w") none = none := by
  decide

/-- C6: the encoding policy — `null`/`undefined` to `Null`, strings to
`Text`, numbers always to `Float` (never integer-tagged, even when
whole), bigints to `Integer` carrying the decimal rendering (which parses
back to the same integer), booleans to `Integer` `"1"`/`"0"`, and bytes
to `Blob` carrying standard-alphabet padded base64. -/
theorem encode_policy :
    encode JsInput.jsNull = mkNull
    ∧ encode JsInput.undef = mkNull
    ∧ (∀ s, encode (JsInput.str s) = mkText s)
    ∧ (∀ x, encode (JsInput.num x) = mkFloat x
        ∧ (encode (JsInput.num x)).type = "float")
    ∧ (∀ i : Int, encode (JsInput.big i) = mkInteger (intToDecimal i)
        ∧ parseIntLit (intToDecimal i) = some i)
    ∧ encode (JsInput.bool true) = mkInteger "1"
    ∧ encode (JsInput.bool false) = mkInteger "0"
    ∧ (∀ bs : List (Fin 256), encode (JsInput.bytes bs) = mkBlob (btoa bs)
        ∧ (∀ c ∈ (btoa bs).data, c ∈ b64alphabet ∨ c = '=')
        ∧ (btoa bs).data.length % 4 = 0) := by
  refine ⟨rfl, rfl, fun s => rfl, fun x => ⟨rfl, rfl⟩,
    fun i => ⟨rfl, parseIntLit_intToDecimal i⟩, rfl, rfl, fun bs => ⟨rfl, ?_, ?_⟩⟩
  · intro c hc
    have hc2 : c ∈ btoaChars (bs.map Fin.val) := hc
    simp only [btoaChars, List.mem_append, List.mem_map] at hc2
    rcases hc2 with ⟨s, _, rfl⟩ | hcp
    · exact Or.inl (b64char_mem s)
    · refine Or.inr ?_
      rcases hmod : (bs.map Fin.val).length % 3 with _ | _ | k
      · rw [padFor_mod0 _ hmod] at hcp
        simp at hcp
      · rw [padFor_mod1 _ hmod] at hcp
        simpa using hcp
      · have hlt : (bs.map Fin.val).length % 3 < 3 := Nat.mod_lt _ (by omega)
        rw [hmod] at hlt
        obtain rfl : k = 0 := by omega
        rw [padFor_mod2 _ hmod] at hcp
        simpa using hcp
  · exact btoaChars_length_mod (bs.map Fin.val)

/-- C7: the default-mode decode inverts the encoding for `null`, strings,
numbers and byte sequences; booleans come back as the numbers `1` and
`0`; and a bigint comes back exactly under mode `bigint`. -/
theorem decode_encode_roundtrip :
    decode (encode JsInput.jsNull) none = some Decoded.vnull
    ∧ (∀ s, decode (encode (JsInput.str s)) none = some (Decoded.str s))
    ∧ (∀ x, decode (encode (JsInput.num x)) none = some (Decoded.num x))
    ∧ (∀ bs : List (Fin 256), decode (encode (JsInput.bytes bs)) none =
        some (Decoded.bytes (bs.map Fin.val)))
    ∧ decode (encode (JsInput.bool true)) none = some (Decoded.num (JsNumber.val 1))
    ∧ decode (encode (JsInput.bool false)) none = some (Decoded.num (JsNumber.val 0))
    ∧ (∀ i : Int, decode (encode (JsInput.big i)) (some "bigint") =
        some (Decoded.big i)) := by
  refine ⟨by decide, ?_, ?_, ?_, by decide, by decide, ?_⟩
  · intro s
    simp [encode, decode, mkText, fieldAsDecoded]
  · intro x
    simp [encode, decode, mkFloat, jsPlus]
  · intro bs
    show decode (mkBlob (btoa bs)) none = some (Decoded.bytes (bs.map Fin.val))
    simp only [decode, mkBlob]
    rw [if_neg (by decide), if_neg (by decide), if_neg (by decide),
      if_neg (by decide)]
    simp [atob_btoa bs]
  · intro i
    show decode (mkInteger (intToDecimal i)) (some "bigint") = some (Decoded.big i)
    simp [decode, mkInteger, modeFalsyOrNumber, jsBigInt,
      parseIntLit_intToDecimal i]

/-- C8, counterexample: a column whose name is the empty string is
present (not absent) yet contributes no key — the projected row is empty
where the claim demands the field `"" ↦ "x"`. -/
theorem parse_empty_name_counterexample :
    (parse resCeEmptyName ParseOptions.noOpts).map Prod.fst = some [[]]
    ∧ ([] : RowOut) ≠ [("", Decoded.str "x")] := by
  decide

/-- C8, amended: on a statement result whose rows match the column count
and whose truthy-named cells all decode (after retagging), `parse`
returns exactly one row object per input row in input order, built by
inserting, in column order, one field per column with a truthy (non-null,
non-empty) name — the name mapped to the decoded (possibly retagged,
possibly transformed) value — while columns with an absent or empty name
contribute no key. -/
theorem parse_projection (res : StmtResult) (opts : ParseOptions)
    (hlen : ∀ r ∈ res.rows, r.length = res.cols.length)
    (hdec : ∀ r ∈ res.rows, ∀ p ∈ res.cols.zip r, strTruthy p.1.name →
      (decode (retag p.1 p.2) (optMode opts)).isSome) :
    ∃ outs : List RowOut,
      parse res opts =
        some (outs, { res with rows := res.rows.map (mutateRowSpec res.cols) })
      ∧ outs.length = res.rows.length
      ∧ (∀ j : Nat, outs[j]? = (res.rows[j]?).bind
          (fun r => projectRowSpec (optMode opts) (optTx opts) res.cols r [])) := by
  have hsome : ∀ r ∈ res.rows,
      ((fun r => projectRowSpec (optMode opts) (optTx opts) res.cols r []) r).isSome :=
    fun r hr => projectRowSpec_isSome _ _ _ _ _ (hlen r hr) (hdec r hr)
  obtain ⟨outs, houts⟩ := mapOrFail_isSome hsome
  refine ⟨outs, ?_, mapOrFail_length houts, fun j => mapOrFail_getElem? houts j⟩
  rw [parse_spec res opts hlen, houts]
  rfl

/-- Witness for the amended C8 at the repository's heterogeneous
three-row fixture. -/
theorem parse_projection_witness :
    ∃ outs : List RowOut,
      parse resMulti ParseOptions.noOpts =
        some (outs, { resMulti with rows := resMulti.rows.map (mutateRowSpec resMulti.cols) })
      ∧ outs.length = resMulti.rows.length
      ∧ (∀ j : Nat, outs[j]? = (resMulti.rows[j]?).bind
          (fun r => projectRowSpec none [] resMulti.cols r [])) :=
  parse_projection resMulti ParseOptions.noOpts (by decide) (by decide)

/-- C9: the `options` dispatch — a mode token applies that mode uniformly
with no transformers, while a transformer map decodes in the default
(`number`) mode and feeds each registered transformer the already-decoded
value, its result replacing the field; unregistered columns keep the
decoded value. -/
theorem parse_options_dispatch (res : StmtResult) (m : String) (t : TxMap)
    (hlen : ∀ r ∈ res.rows, r.length = res.cols.length) :
    parse res (ParseOptions.mode m) =
      (mapOrFail (fun r => projectRowSpec (some m) [] res.cols r []) res.rows).map
        (fun outs => (outs, { res with rows := res.rows.map (mutateRowSpec res.cols) }))
    ∧ parse res (ParseOptions.transformers t) =
      (mapOrFail (fun r => projectRowSpec none t res.cols r []) res.rows).map
        (fun outs => (outs, { res with rows := res.rows.map (mutateRowSpec res.cols) }))
    ∧ (∀ nm d, applyTx [] nm d = d)
    ∧ (∀ nm d, t.lookup nm = none → applyTx t nm d = d)
    ∧ (∀ nm d f, t.lookup nm = some f → applyTx t nm d = f d) := by
  refine ⟨parse_spec res (ParseOptions.mode m) hlen,
    parse_spec res (ParseOptions.transformers t) hlen,
    fun nm d => rfl, fun nm d h => ?_, fun nm d f h => ?_⟩
  · simp [applyTx, h]
  · simp [applyTx, h]

/-- Witness for C9 at the repository's transformer fixture. -/
theorem parse_options_dispatch_witness :
    parse resConfig (ParseOptions.mode "bigint") =
      (mapOrFail (fun r => projectRowSpec (some "bigint") [] resConfig.cols r [])
          resConfig.rows).map
        (fun outs => (outs, { resConfig with
          rows := resConfig.rows.map (mutateRowSpec resConfig.cols) }))
    ∧ parse resConfig (ParseOptions.transformers txConfig) =
      (mapOrFail (fun r => projectRowSpec none txConfig resConfig.cols r [])
          resConfig.rows).map
        (fun outs => (outs, { resConfig with
          rows := resConfig.rows.map (mutateRowSpec resConfig.cols) })) := by
  have h := parse_options_dispatch resConfig "bigint" txConfig (by decide)
  exact ⟨h.1, h.2.1⟩

/-- C10, counterexample: decltype retagging is skipped for a column
without a truthy name, and for an empty-string decltype — after `parse`
both wire tags are still `integer` where the claim demands the lowered
decltypes. -/
theorem parse_retag_skips_counterexample :
    ((parse resCeUnnamedDecl ParseOptions.noOpts).map
        (fun p => p.2.rows.map (fun r => r.map JsValue.type)))
      = some [["integer", "integer"]]
    ∧ toLowerStr "TEXT" = "text"
    ∧ ("integer" : String) ≠ "text" := by
  decide

/-- C10, amended: `parse` is not pure in its input — for every column
with a truthy name and a truthy decltype it overwrites, in place, the
`type` discriminant of that column's value in every row with the
lower-cased decltype, leaving the value's other fields and the statement
result's other fields unchanged; retagging a value whose tag already
equals the lower-cased decltype changes nothing, so decoding is then the
same as without retagging. -/
theorem parse_mutation (res : StmtResult) (opts : ParseOptions)
    (hlen : ∀ r ∈ res.rows, r.length = res.cols.length)
    (hdec : ∀ r ∈ res.rows, ∀ p ∈ res.cols.zip r, strTruthy p.1.name →
      (decode (retag p.1 p.2) (optMode opts)).isSome) :
    (∃ outs, parse res opts =
        some (outs, { res with rows := res.rows.map (mutateRowSpec res.cols) }))
    ∧ (∀ (cols : List Col) (vals : List JsValue),
        mutateRowSpec cols vals = (cols.zip vals).map
          (fun p => if strTruthy p.1.name then retag p.1 p.2 else p.2))
    ∧ (∀ (c : Col) (v : JsValue), strTruthy c.decltype →
        (retag c v).type = toLowerStr (c.decltype.getD "")
        ∧ (retag c v).value = v.value ∧ (retag c v).base64 = v.base64)
    ∧ (∀ (c : Col) (v : JsValue), v.type = toLowerStr (c.decltype.getD "") →
        retag c v = v ∧
          decode (retag c v) (optMode opts) = decode v (optMode opts)) := by
  have hretag : ∀ (c : Col) (v : JsValue),
      v.type = toLowerStr (c.decltype.getD "") → retag c v = v := by
    intro c v hv
    unfold retag
    split
    · cases v
      simp_all
    · rfl
  refine ⟨?_, fun cols vals => rfl, ?_, fun c v hv => ⟨hretag c v hv, ?_⟩⟩
  · have hsome : ∀ r ∈ res.rows,
        ((fun r => projectRowSpec (optMode opts) (optTx opts) res.cols r []) r).isSome :=
      fun r hr => projectRowSpec_isSome _ _ _ _ _ (hlen r hr) (hdec r hr)
    obtain ⟨outs, houts⟩ := mapOrFail_isSome hsome
    refine ⟨outs, ?_⟩
    rw [parse_spec res opts hlen, houts]
    rfl
  · intro c v hdt
    unfold retag
    rw [if_pos hdt]
    exact ⟨rfl, rfl, rfl⟩
  · rw [hretag c v hv]

/-- Witness for the amended C10 at the repository's decltype fixture,
where the wire tag already matches the decltype. -/
theorem parse_mutation_witness :
    (∃ outs, parse resDecl ParseOptions.noOpts =
        some (outs, { resDecl with rows := resDecl.rows.map (mutateRowSpec resDecl.cols) }))
    ∧ retag { name := some "uid", decltype := some "TEXT" } (mkText "01GW3") =
        mkText "01GW3" := by
  have h := parse_mutation resDecl ParseOptions.noOpts (by decide) (by decide)
  exact ⟨h.1, (h.2.2.2 _ _ (by decide)).1⟩

end Hrana
